import Mathlib

/-!
Verification development for pound (reverse proxy / load balancer).

Shallow embedding of the request-processing code in src/http.c, the ACL
code in src/config.c and the resolver merge in src/resolver.c.  C strings
are modeled as lists of byte values (List Nat); machine long is Int with
explicit clamping at the 64-bit bounds where the source relies on strtol
overflow behavior.
-/

namespace Pound

/-- Byte string of an ASCII Lean string (C char values). -/
def bs (s : String) : List Nat := s.toList.map Char.toNat

/-- C iscntrl in the POSIX locale: bytes 0..31 and 127. -/
def iscntrlB (c : Nat) : Bool := c < 32 || c == 127

/-- C isdigit. -/
def isdigitB (c : Nat) : Bool := 48 ≤ c && c ≤ 57

/-- C isspace in the POSIX locale. -/
def isspaceB (c : Nat) : Bool := c == 32 || (9 ≤ c && c ≤ 13)

/-- C tolower for ASCII. -/
def tolowerB (c : Nat) : Nat := if 65 ≤ c && c ≤ 90 then c + 32 else c

/-- Equality up to case, as tested by strcasecmp () == 0. -/
def caseEq (a b : List Nat) : Bool := a.map tolowerB == b.map tolowerB

/-- Value of a decimal digit string (most significant first). -/
def natOfDigits (l : List Nat) : Nat := l.foldl (fun acc c => acc * 10 + (c - 48)) 0

def LONG_MAX : Int := 2 ^ 63 - 1

def LONG_MIN : Int := -(2 ^ 63)

/-- Digit-and-overflow part of strtol (base 10, 64-bit long).  Returns
(value, rest-of-string-at-endptr, errno-is-ERANGE).  If no digit was
consumed, endptr is reset to the original string orig, as strtol does. -/
def strtolCore (neg : Bool) (s orig : List Nat) : Int × List Nat × Bool :=
  let digits := s.takeWhile isdigitB
  let rest := s.dropWhile isdigitB
  if digits.isEmpty then (0, orig, false)
  else
    let v : Int := (if neg then -1 else 1) * (natOfDigits digits : Int)
    if v > LONG_MAX then (LONG_MAX, rest, true)
    else if v < LONG_MIN then (LONG_MIN, rest, true)
    else (v, rest, false)

/-- Model of STRTOL (val, &p, 10) on a byte string: skip spaces, optional
sign, digits; result, endptr suffix and ERANGE flag. -/
def strtolSpan (s : List Nat) : Int × List Nat × Bool :=
  match s.dropWhile isspaceB with
  | [] => strtolCore false [] s
  | c :: r =>
    if c = 43 then strtolCore false r s
    else if c = 45 then strtolCore true r s
    else strtolCore false (c :: r) s

/-! ## get_line (src/http.c lines 308-398) -/

/-- The do-while skip loops in get_line: read and discard bytes up to and
including the next LF (or EOF). -/
def skipToLF : List Nat → List Nat
  | [] => []
  | c :: rest => if c == 10 then rest else skipToLF rest

/-- The storing condition of get_line: !iscntrl (tmp) || tmp == '\t'. -/
def goodByte (c : Nat) : Bool := !iscntrlB c || c == 9

/-- Body of get_line's for loop.  input is the unread byte stream, i the C
loop counter, seenCr the seen_cr flag, acc the bytes stored in buf so far
(reversed).  Result: the success flag (true for C return 0, false for
return 1), the C-string content of the caller's buffer on exit, and the
not-yet-consumed input.  The buffer is memset to zero on entry and never
cleared on a failure path, and a CR is skipped without being stored (its
slot stays zero), so on every exit the buffer's C-string value is exactly
the stored bytes acc - also when the line is rejected, in which case the
stored prefix stays behind for the caller.  The C return value -1 arises
only from a BIO_read result of -2 (BIO_gets not implemented), which the
buffered socket BIOs of do_http never produce, so it has no counterpart
here: every failure is return 1. -/
def getLineAux (bufsize : Nat) (input : List Nat) (i : Nat) (seenCr : Bool)
    (acc : List Nat) : Bool × List Nat × List Nat :=
  if i < bufsize - 1 then
    match input with
    | [] => (false, acc.reverse, [])
    | c :: rest =>
      if seenCr then
        if c == 10 then (true, acc.reverse, rest)
        else (false, acc.reverse, skipToLF rest)
      else if goodByte c then getLineAux bufsize rest (i + 1) false (c :: acc)
      else if c == 13 then getLineAux bufsize rest (i + 1) true acc
      else if c == 10 then (true, acc.reverse, rest)
      else (false, acc.reverse, skipToLF rest)
  else (false, acc.reverse, skipToLF input)

/-- get_line: read one line of at most bufsize-1 stored bytes into a fresh
zeroed buffer.  First component true models C return 0, false models
return 1; the second component is what the buffer holds afterwards. -/
def get_line (bufsize : Nat) (input : List Nat) : Bool × List Nat × List Nat :=
  getLineAux bufsize input 0 false []

/-- Drop a single trailing CR (byte 13) from a line, if present. -/
def stripCR : List Nat → List Nat
  | [] => []
  | [c] => if c == 13 then [] else [c]
  | c :: d :: rest => c :: stripCR (d :: rest)

/-! ## expand_url (src/http.c lines 85-138) -/

/-- Loop of expand_url over the template, with a fuel argument (each loop
iteration of the C code consumes at least one template byte, so fuel equal
to the template length never runs out on a terminating path).  sm is the
submatch vector, modeled as the list of captured substrings of orig_url;
redir is the running redir_req flag.  Returns the produced text and the
final flag.  none models the non-terminating path of the C loop: on a
dollar sign followed by a byte that is neither a dollar sign nor a digit,
no branch of the C if-chain advances url, and the loop spins forever. -/
def expandGoF : Nat → List Nat → List (List Nat) → Bool → Option (List Nat × Bool)
  | _, [], _, redir => some ([], redir)
  | 0, _ :: _, _, _ => none
  | fuel + 1, c :: rest, sm, redir =>
    if c ≠ 36 then (expandGoF fuel rest sm redir).map (fun pr => (c :: pr.1, pr.2))
    else
      match rest with
      | [] =>
        -- trailing dollar: the C code copies it and then steps url two bytes,
        -- one past the terminating NUL; the benign outcome (loop exit) is
        -- modeled
        some ([36], redir)
      | d :: rest2 =>
        if d == 36 then (expandGoF fuel rest2 sm redir).map (fun pr => (36 :: pr.1, pr.2))
        else if isdigitB d then
          let digits := (d :: rest2).takeWhile isdigitB
          let after := (d :: rest2).dropWhile isdigitB
          let v := natOfDigits digits
          if 2 ^ 64 ≤ v then
            -- strtoul sets ERANGE: the dollar is copied and scanning resumes
            -- at the digits
            (expandGoF fuel (d :: rest2) sm redir).map (fun pr => (36 :: pr.1, pr.2))
          else
            let n : Int := if v < 2 ^ 63 then (v : Int) else (v : Int) - 2 ^ 64
            let seg :=
              if n < (sm.length : Int) then
                -- in-range capture: bytes of match n (a negative n, possible
                -- only for 20-digit references, indexes the C array out of
                -- bounds; modeled as empty)
                if 0 ≤ n then sm.getD v [] else []
              else 36 :: digits
            (expandGoF fuel after sm true).map (fun pr => (seg ++ pr.1, pr.2))
        else none

/-- expand_url: expand a redirect/acme template against the original URL and
the capture vector; when the final redir_req flag is clear the original URL
is appended for backward compatibility. -/
def expand_url (url orig : List Nat) (sm : List (List Nat)) (redir : Bool) :
    Option (List Nat) :=
  match expandGoF url.length url sm redir with
  | none => none
  | some (s, r) => some (if r then s else s ++ orig)

/-! ## Header records and http_header_list_filter (src/http.c lines 889-901) -/

/-- Header classification codes assigned by qualify_header. -/
inductive HdrCode where
  | transferEncoding
  | contentLength
  | connection
  | location
  | contLocation
  | host
  | referer
  | userAgent
  | destination
  | expect
  | upgrade
  | authorization
  | other
  | illegal
  deriving DecidableEq, Repr

/-- One struct http_header: the raw text line, the classification code and
the value span, as produced by qualify_header (whose HEADER regex is
compiled outside the request path). -/
structure Hdr where
  raw : List Nat
  code : HdrCode
  value : List Nat
  deriving DecidableEq, Repr

/-- http_header_list_filter: one DeleteHeader/HeadRemove matcher applied to a
header list.  m h models regexec (&m->pat, hdr->header, 0, NULL, 0) == 0,
i.e. the matcher's regex matching the full raw header text.  The C loop
removes hdr when regexec returns nonzero, so exactly the non-matching
headers are removed and the matching ones survive. -/
def http_header_list_filter (m : Hdr → Bool) (hs : List Hdr) : List Hdr :=
  hs.filter (fun h => m h)

/-! ## http_request_read (src/http.c lines 952-1013) -/

/-- The parts of struct http_request that http_request_read fills in: the
request line (strdup of get_line's buffer) and the header list. -/
structure HttpRequest where
  request : List Nat
  headers : List Hdr
  deriving DecidableEq, Repr

/-- The leading loop of http_request_read:
while ((res = get_line (in, buf, sizeof (buf))) == 0) if (buf [0]) break;
i.e. skip empty lines (HTTP/1.1 allows leading CRLF) until a non-empty line
or a get_line failure.  Returns (res == 0, buf, unread input).  Note that on
failure the loop exits with the rejected line's stored prefix still in buf.
fuel only serves termination: every get_line success consumes at least the
line's LF, so fuel = input length + 1 can never run out. -/
def skipEmptyLines (bufsize : Nat) : Nat → List Nat → Bool × List Nat × List Nat
  | 0, input => (false, [], input)
  | fuel + 1, input =>
    match get_line bufsize input with
    | (false, buf, rest) => (false, buf, rest)
    | (true, buf, rest) =>
      if buf = [] then skipEmptyLines bufsize fuel rest
      else (true, buf, rest)

/-- The header loop of http_request_read: read lines until the empty line;
any get_line failure frees the request and returns -1 (modeled none);
qualify models http_header_alloc together with qualify_header, whose HEADER
regex is compiled outside src/ - headers classified HEADER_ILLEGAL are
dropped, the others are appended in order.  fuel as in skipEmptyLines. -/
def headersRead (qualify : List Nat → Hdr) (bufsize : Nat) :
    Nat → List Nat → List Hdr → Option (List Hdr × List Nat)
  | 0, _, _ => none
  | fuel + 1, input, acc =>
    match get_line bufsize input with
    | (false, _, _) => none
    | (true, buf, rest) =>
      if buf = [] then some (acc, rest)
      else
        let hdr := qualify buf
        if hdr.code = .illegal then headersRead qualify bufsize fuel rest acc
        else headersRead qualify bufsize fuel rest (acc ++ [hdr])

/-- http_request_read: read the request line, then the headers.  After the
leading loop the C code tests only if (res < 0) return -1 (line 967), but
in this source get_line reports every failure - bad control byte, lone CR,
over-long line, EOF - with return value 1 (its -1 needs a BIO type without
read support, impossible for do_http's buffered socket BIOs).  The guard is
therefore never taken, and whatever get_line left in buf, including the
stored prefix of a rejected line, is strdup'd as the request line (line
978) and the request proceeds.  The header loop, by contrast, aborts on any
nonzero get_line result (line 988). -/
def http_request_read (qualify : List Nat → Hdr) (bufsize : Nat) (input : List Nat) :
    Option HttpRequest :=
  match skipEmptyLines bufsize (input.length + 1) input with
  | (_, buf, rest) =>
    match headersRead qualify bufsize (rest.length + 1) rest [] with
    | none => none
    | some (hdrs, _) => some ⟨buf, hdrs⟩

/-- Classification stand-in used to evaluate http_request_read on concrete
input: every line is tagged HEADER_OTHER with the full text as value.  The
real classification (qualify_header's HEADER regex) lives outside src/ and
plays no role in claim C9, which is about the request line. -/
def qualifyRaw (raw : List Nat) : Hdr := ⟨raw, .other, raw⟩

/-! ## Request methods (src/http.c lines 1096-1153) -/

/-- METH_ constants of the methods table. -/
inductive Method where
  | mGET | mPOST | mHEAD | mPUT | mPATCH | mDELETE | mLOCK | mUNLOCK
  | mPROPFIND | mPROPPATCH | mSEARCH | mMKCOL | mMOVE | mCOPY | mOPTIONS
  | mTRACE | mMKACTIVITY | mCHECKOUT | mMERGE | mREPORT | mSUBSCRIBE
  | mUNSUBSCRIBE | mBPROPPATCH | mPOLL | mBMOVE | mBCOPY | mBDELETE
  | mBPROPFIND | mNOTIFY | mCONNECT | mRPC_IN_DATA | mRPC_OUT_DATA
  deriving DecidableEq, Repr

/-- The methods[] table: (name, METH_ value, group). -/
def methodsTable : List (List Nat × Method × Nat) :=
  [ (bs "GET",          .mGET,          0)
  , (bs "POST",         .mPOST,         0)
  , (bs "HEAD",         .mHEAD,         0)
  , (bs "PUT",          .mPUT,          1)
  , (bs "PATCH",        .mPATCH,        1)
  , (bs "DELETE",       .mDELETE,       1)
  , (bs "LOCK",         .mLOCK,         2)
  , (bs "UNLOCK",       .mUNLOCK,       2)
  , (bs "PROPFIND",     .mPROPFIND,     2)
  , (bs "PROPPATCH",    .mPROPPATCH,    2)
  , (bs "SEARCH",       .mSEARCH,       2)
  , (bs "MKCOL",        .mMKCOL,        2)
  , (bs "MOVE",         .mMOVE,         2)
  , (bs "COPY",         .mCOPY,         2)
  , (bs "OPTIONS",      .mOPTIONS,      2)
  , (bs "TRACE",        .mTRACE,        2)
  , (bs "MKACTIVITY",   .mMKACTIVITY,   2)
  , (bs "CHECKOUT",     .mCHECKOUT,     2)
  , (bs "MERGE",        .mMERGE,        2)
  , (bs "REPORT",       .mREPORT,       2)
  , (bs "SUBSCRIBE",    .mSUBSCRIBE,    3)
  , (bs "UNSUBSCRIBE",  .mUNSUBSCRIBE,  3)
  , (bs "BPROPPATCH",   .mBPROPPATCH,   3)
  , (bs "POLL",         .mPOLL,         3)
  , (bs "BMOVE",        .mBMOVE,        3)
  , (bs "BCOPY",        .mBCOPY,        3)
  , (bs "BDELETE",      .mBDELETE,      3)
  , (bs "BPROPFIND",    .mBPROPFIND,    3)
  , (bs "NOTIFY",       .mNOTIFY,       3)
  , (bs "CONNECT",      .mCONNECT,      3)
  , (bs "RPC_IN_DATA",  .mRPC_IN_DATA,  4)
  , (bs "RPC_OUT_DATA", .mRPC_OUT_DATA, 4)
  ]

/-- find_method: first table entry whose name is a case-insensitive prefix of
str (strncasecmp with the entry's own length; the group argument of the C
function is unused). -/
def find_method (str : List Nat) : Option (Method × Nat) :=
  (methodsTable.find? (fun e => caseEq (str.take e.1.length) e.1)).map
    (fun e => (e.2.1, e.2.2))

/-! ## decode_url (src/http.c lines 1158-1233) -/

/-- Value of a byte in the xdig table "0123456789ABCDEFabcdef", with the
a -= 6 adjustment for lowercase; none when the byte is not a hex digit. -/
def hexVal (c : Nat) : Option Nat :=
  if 48 ≤ c && c ≤ 57 then some (c - 48)
  else if 65 ≤ c && c ≤ 70 then some (c - 55)
  else if 97 ≤ c && c ≤ 102 then some (c - 87)
  else none

/-- decode_url: percent-decode a URL; none when a %00 is found (the C code
returns 1 and the request is rejected). -/
def decode_url : List Nat → Option (List Nat)
  | [] => some []
  | [c] => some [c]
  | [c, d] =>
    if c = 37 then some [c, d]
    else (decode_url [d]).map (fun l => c :: l)
  | c :: d1 :: d2 :: rest2 =>
    if c ≠ 37 then (decode_url (d1 :: d2 :: rest2)).map (fun l => c :: l)
    else
      match hexVal d1 with
      | none => (decode_url (d2 :: rest2)).map (fun l => 37 :: d1 :: l)
      | some a =>
        match hexVal d2 with
        | none => (decode_url rest2).map (fun l => 37 :: d1 :: d2 :: l)
        | some b =>
          if 16 * a + b = 0 then none
          else (decode_url rest2).map (fun l => (16 * a + b) :: l)

/-! ## parse_http_request (src/http.c lines 1235-1278) -/

/-- parse_http_request: split the request line into method, decoded URL and
HTTP minor version; none models the C return -1 (reply 501).  The
str[len-1] == 0 guard of the source can never fire on a C string and has no
translation here. -/
def parse_http_request (req : List Nat) (group : Nat) : Option (Method × List Nat × Nat) :=
  let len := (req.takeWhile (fun c => !(c == 32))).length
  if len = 0 then none
  else
    match find_method req with
    | none => none
    | some (md, g) =>
      if group < g then none
      else
        let str1 := (req.drop len).dropWhile (fun c => c == 32)
        if str1 = [] then none
        else
          let url := str1.takeWhile (fun c => !(c == 32))
          let str2 := (str1.dropWhile (fun c => !(c == 32))).dropWhile (fun c => c == 32)
          if str2.take 7 = bs "HTTP/1." ∧ (str2.getD 7 0 = 48 ∨ str2.getD 7 0 = 49) ∧
              str2.length = 8 then
            match decode_url url with
            | none => none
            | some u => some (md, u, str2.getD 7 0 - 48)
          else none

/-! ## The header-checking phase of do_http (src/http.c lines 1884-2036) -/

/-- is_rpc initial value from the request method (src/http.c lines 1857-1869). -/
def initIsRpc (m : Method) : Int :=
  match m with
  | .mRPC_IN_DATA => 1
  | .mRPC_OUT_DATA => 0
  | _ => -1

/-- Result of the DLIST_FOREACH_SAFE header loop: an immediate 400 reply, or
the surviving header list with the chunked / cont / is_rpc / conn_closed
state.  400 tags: 1 multiple Transfer-encoding, 2 multiple Content-length,
3 Content-length bad value. -/
inductive LoopRes where
  | e400 (tag : Nat)
  | done (kept : List Hdr) (chunked : Bool) (cont : Int) (isRpc : Int) (connClosed : Bool)
  deriving DecidableEq, Repr

/-- The header qualification loop of do_http.  kept holds the headers
processed so far that were not removed; the Connection: upgrade and
Upgrade: websocket branches only set the websocket state bits and are
otherwise no-ops here, and the Authorization branch only extracts the user
name. -/
def headerLoop (kept : List Hdr) (rest : List Hdr) (chunked : Bool) (cont : Int)
    (isRpc : Int) (connClosed : Bool) : LoopRes :=
  match rest with
  | [] => .done kept chunked cont isRpc connClosed
  | h :: hrest =>
    match h.code with
    | .connection =>
      if caseEq h.value (bs "close") then headerLoop (kept ++ [h]) hrest chunked cont isRpc true
      else headerLoop (kept ++ [h]) hrest chunked cont isRpc connClosed
    | .transferEncoding =>
      if caseEq h.value (bs "chunked") then
        headerLoop (kept ++ [h]) hrest true cont isRpc connClosed
      else .e400 1
    | .contentLength =>
      if !(cont == -1) || h.value.contains 44 then .e400 2
      else
        let r := strtolSpan h.value
        if r.2.2 || !r.2.1.isEmpty then .e400 3
        else
          let cont2 := r.1
          let isRpc2 : Int :=
            if isRpc = 1 ∧ (cont2 < 0x20000 ∨ 0x80000000 < cont2) then -1 else isRpc
          if cont2 < 0 then headerLoop kept hrest chunked cont2 isRpc2 connClosed
          else headerLoop (kept ++ [h]) hrest chunked cont2 isRpc2 connClosed
    | .expect =>
      if caseEq h.value (bs "100-continue") then headerLoop kept hrest chunked cont isRpc connClosed
      else headerLoop (kept ++ [h]) hrest chunked cont isRpc connClosed
    | .illegal => headerLoop kept hrest chunked cont isRpc connClosed
    | _ => headerLoop (kept ++ [h]) hrest chunked cont isRpc connClosed

/-- Outcome of the whole header-checking phase: a 400 reply (tag 4 is the
request-smuggling check of lines 2014-2023), the 413 reply of lines
2028-2036, or fall-through to service and backend selection with the final
header list and state.  Every err400/err413 outcome corresponds to an
err_reply followed by return, before get_service / get_backend are reached
and before any byte is sent towards a backend. -/
inductive CheckOutcome where
  | err400 (tag : Nat)
  | err413
  | proceed (hdrs : List Hdr) (chunked : Bool) (cont : Int) (isRpc : Int) (connClosed : Bool)
  deriving DecidableEq, Repr

/-- header_check: header loop, then the listener's head_off matchers
(http_header_list_filter), then the smuggling check, then the request size
check. -/
def header_check (isRpcInit : Int) (hs : List Hdr) (headOff : List (Hdr → Bool))
    (maxReq : Int) : CheckOutcome :=
  match headerLoop [] hs false (-1) isRpcInit false with
  | .e400 t => .err400 t
  | .done kept chunked cont isRpc connClosed =>
    let kept2 := headOff.foldl (fun l m => http_header_list_filter m l) kept
    if chunked = true ∧ cont ≠ -1 then .err400 4
    else if 0 < maxReq ∧ 0 < cont ∧ maxReq < cont ∧ isRpc ≠ 1 then .err413
    else .proceed kept2 chunked cont isRpc connClosed

/-! ## The request checking pipeline of do_http (src/http.c lines 1841-2036) -/

/-- Listener fields consulted by the request checking phase.  max_uri_length
is the field set by the MaxURI directive (src/config.c lines 3319-3323);
url_pat models the CheckURL regex as a predicate on the decoded URL. -/
structure ListenerCfg where
  verb : Nat
  maxReq : Int
  maxUriLength : Nat
  urlPat : Option (List Nat → Bool)
  headOff : List (Hdr → Bool)

/-- Replies produced by the request checking phase of do_http, plus the
fall-through to routing.  uriTooLong (HTTP 414) is listed in http_status[]
and configurable through Err414 / ErrorFile 414, and is included here so
that its absence from every code path is expressible. -/
inductive ReqOutcome where
  | notImplemented
  | badRequest (tag : Nat)
  | payloadTooLarge
  | uriTooLong
  | route (meth : Method) (url : List Nat) (version : Nat) (hdrs : List Hdr)
      (chunked : Bool) (cont : Int) (isRpc : Int) (connClosed : Bool)
  deriving DecidableEq, Repr

/-- do_http from reading the request up to the point where service selection
starts: parse_http_request (501 on failure), the CheckURL pattern (501 on
mismatch), then the header-checking phase. -/
def do_http_request_check (l : ListenerCfg) (reqLine : List Nat) (hs : List Hdr) :
    ReqOutcome :=
  match parse_http_request reqLine l.verb with
  | none => .notImplemented
  | some (meth, url, ver) =>
    if (match l.urlPat with | some f => !(f url) | none => false) then .notImplemented
    else
      match header_check (initIsRpc meth) hs l.headOff l.maxReq with
      | .err400 t => .badRequest t
      | .err413 => .payloadTooLarge
      | .proceed kept chunked cont isRpc cc => .route meth url ver kept chunked cont isRpc cc

/-! ## ACL matching (src/config.c lines 380-553) -/

def AF_UNIX : Nat := 1
def AF_INET : Nat := 2
def AF_INET6 : Nat := 10
def PF_UNSPEC : Nat := 0
def PF_INET : Nat := 2
def PF_INET6 : Nat := 10

def MAX_INADDR_BYTES : Nat := 16

/-- One CIDR entry of an ACL. -/
structure CIDR where
  family : Nat
  len : Nat
  addr : List Nat
  mask : List Nat
  deriving DecidableEq, Repr

/-- cidr_match: 0 on match, 1 otherwise.  Note that the byte loop runs only
when cidr->len equals the peer length, and the function falls through to
return 0 (match) when the lengths differ. -/
def cidr_match (cidr : CIDR) (ap : List Nat) (len : Nat) : Nat :=
  if cidr.len = len then
    if (List.range len).all (fun i => cidr.addr.getD i 0 == (ap.getD i 0) &&& cidr.mask.getD i 0)
    then 0 else 1
  else 0

/-- A peer socket address: the sa_family and the inet address bytes (4 for
AF_INET, 16 for AF_INET6; unused for other families). -/
structure SockAddr where
  family : Nat
  bytes : List Nat
  deriving DecidableEq, Repr

/-- sockaddr_bytes: address byte pointer and length, none for families other
than AF_INET/AF_INET6 (the C function returns -1 there). -/
def sockaddr_bytes (sa : SockAddr) : Option (List Nat × Nat) :=
  if sa.family = AF_INET then some (sa.bytes, 4)
  else if sa.family = AF_INET6 then some (sa.bytes, 16)
  else none

/-- acl_match: 0 when some CIDR of the list matches, 1 when none does, -1 on
invalid address family (the C len == -1 comparison on a size_t is true
exactly when sockaddr_bytes returned -1). -/
def acl_match (acl : List CIDR) (sa : SockAddr) : Int :=
  match sockaddr_bytes sa with
  | none => -1
  | some (ap, len) =>
    if acl.any (fun cidr => cidr.family == sa.family && cidr_match cidr ap len == 0)
    then 0 else 1

/-- masklen_to_netmask: cnt = masklen / 8 leading 0xff bytes, then one
partial byte (0xff >> (8 - masklen % 8)) << (8 - masklen % 8), then zeros,
over the 16-byte buffer.  Faithful for masklen ≤ 128; larger values overrun
the C buffer. -/
def masklen_to_netmask (masklen : Nat) : List Nat :=
  (List.range MAX_INADDR_BYTES).map (fun i =>
    if i < masklen / 8 then 0xff
    else if i = masklen / 8 then (0xff >>> (8 - masklen % 8)) <<< (8 - masklen % 8)
    else 0)

/-- Core of parse_cidr (src/config.c lines 519-544) after getaddrinfo: the
zero-filled CIDR gets family and len from the resolved address, the first
len address bytes are copied in (memcpy into the zeroed 16-byte array), the
mask is built from masklen (defaulting to len * 8 when no /mask was given),
and the network address is fixed up with addr[i] &= mask[i]. -/
def parse_cidr_core (family len : Nat) (ab : List Nat) (masklenOpt : Option Nat) : CIDR :=
  let masklen := masklenOpt.getD (len * 8)
  let mask := masklen_to_netmask masklen
  let addr0 := (List.range MAX_INADDR_BYTES).map (fun i => if i < len then ab.getD i 0 else 0)
  let addr := (List.range MAX_INADDR_BYTES).map (fun i =>
    if i < len then (addr0.getD i 0) &&& mask.getD i 0 else addr0.getD i 0)
  { family := family, len := len, addr := addr, mask := mask }

/-! ## dns_lookup (src/resolver.c lines 351-451) -/

/-- DNS status classes of the resolver. -/
inductive DnsStatus where
  | success | notFound | tempFailure | failure
  deriving DecidableEq, Repr

/-- One adns answer: expiry time and the address records (4 bytes each for
A, 16 for AAAA). -/
structure DnsAnswer where
  expires : Int
  rrs : List (List Nat)
  deriving DecidableEq, Repr

/-- Result of one dns_query call: the answer (status dns_success) or a
failure status. -/
inductive QueryRes where
  | ok (ans : DnsAnswer)
  | err (st : DnsStatus)
  deriving DecidableEq, Repr

def rcOf (q : QueryRes) : DnsStatus :=
  match q with
  | .ok _ => .success
  | .err s => s

def ansOf (q : QueryRes) : Option DnsAnswer :=
  match q with
  | .ok a => some a
  | .err _ => none

/-- One slot of the resp->addr array (a union of sockaddr_in and
sockaddr_in6). -/
structure AddrEntry where
  family : Nat
  port : Nat
  bytes : List Nat
  deriving DecidableEq, Repr

/-- calloc zero fill of an addr slot. -/
def zeroEntry : AddrEntry := { family := 0, port := 0, bytes := [] }

def mkSockIn (b : List Nat) : AddrEntry := { family := AF_INET, port := 0, bytes := b }

def mkSockIn6 (b : List Nat) : AddrEntry := { family := AF_INET6, port := 0, bytes := b }

/-- struct dns_response for dns_resp_addr. -/
structure DnsResp where
  expires : Int
  count : Nat
  addr : List AddrEntry
  deriving DecidableEq, Repr

/-- The response-building part of dns_lookup (lines 389-446): allocate
count = nrrs_a + nrrs_aaaa zeroed slots, copy the A records at indices
0..nrrs_a-1, then copy the AAAA records.  The AAAA copy loop of the source
addresses resp->addr[i] with its own loop index i (not resp->count), which
makes it overwrite the slots just filled from the A answer; that behavior
is preserved here. -/
def dns_merge (ansA ans6 : Option DnsAnswer) : DnsStatus × Option DnsResp :=
  let nA := match ansA with | some a => a.rrs.length | none => 0
  let n6 := match ans6 with | some a => a.rrs.length | none => 0
  let count := nA + n6
  if count = 0 then (.success, some { expires := 0, count := 0, addr := [] })
  else
    let exp1 : Int := match ansA with | some a => a.expires | none => 0
    let arr1 :=
      match ansA with
      | some a =>
        (List.range a.rrs.length).foldl
          (fun arr i => arr.set i (mkSockIn (a.rrs.getD i []))) (List.replicate count zeroEntry)
      | none => List.replicate count zeroEntry
    let exp2 : Int :=
      match ans6 with
      | some a => if a.expires < exp1 then a.expires else exp1
      | none => exp1
    let arr2 :=
      match ans6 with
      | some a =>
        (List.range a.rrs.length).foldl
          (fun arr i => arr.set i (mkSockIn6 (a.rrs.getD i []))) arr1
      | none => arr1
    (.success, some { expires := exp2, count := count, addr := arr2 })

/-- dns_lookup with the results of the two dns_query calls supplied as
parameters.  For family PF_INET6 the C code reads rc_a uninitialized
(undefined behavior); rcOf qa stands in for the garbage value. -/
def dns_lookup (family : Nat) (qa q6 : QueryRes) : DnsStatus × Option DnsResp :=
  let doA := family = PF_UNSPEC ∨ family = PF_INET
  let rcA := rcOf qa
  if doA ∧ rcA ≠ .success ∧ family = PF_INET then (rcA, none)
  else
    let ansA := if doA then ansOf qa else none
    let do6 := family = PF_UNSPEC ∨ family = PF_INET6
    let early : Option (DnsStatus × Option DnsResp) :=
      if do6 then
        match rcOf q6 with
        | .success => none
        | .notFound => if rcA ≠ .success then some (.notFound, none) else none
        | .tempFailure =>
          -- falls through into the dns_failure case, whose guard can then
          -- no longer be true
          if rcA ≠ .success then some (rcA, none) else none
        | .failure => if rcA ≠ .success then some (.failure, none) else none
      else none
    match early with
    | some r => r
    | none =>
      let ans6 := if do6 then ansOf q6 else none
      dns_merge ansA ans6

/-! ## Predicates used to state the claims -/

/-- A header that the qualification loop counts as Transfer-Encoding:
chunked. -/
def isTEChunkedB (h : Hdr) : Bool :=
  h.code == .transferEncoding && caseEq h.value (bs "chunked")

/-- A Content-Length header whose value parses cleanly (no strtol error, no
trailing bytes) to a non-negative number, i.e. one that survives header
qualification. -/
def isCleanNonnegCLB (h : Hdr) : Bool :=
  h.code == .contentLength && !(strtolSpan h.value).2.2 &&
    (strtolSpan h.value).2.1.isEmpty && !(decide ((strtolSpan h.value).1 < 0))

/-- A Content-Length header with a malformed value: strtol range error,
trailing non-numeric bytes, or a comma-separated value list. -/
def isBadCLB (h : Hdr) : Bool :=
  h.code == .contentLength &&
    ((strtolSpan h.value).2.2 || !(strtolSpan h.value).2.1.isEmpty || h.value.contains 44)

/-! ## Theorems -/

/-- C3: the code keeps exactly the headers whose full text matches the
DeleteHeader matcher and removes the non-matching ones.  The regexec result
in http_header_list_filter is used as a truth value without comparing it to
0, which inverts the intended test: here a matcher whose regex matches
exactly the header "X-Marker: yes" leaves that header in place and removes
"Content-Type: text/plain" instead, while the claim requires the opposite
result. -/
theorem http_header_list_filter_keeps_matching :
    http_header_list_filter (fun h => h.raw == bs "X-Marker: yes")
        [⟨bs "X-Marker: yes", .other, bs "yes"⟩,
         ⟨bs "Content-Type: text/plain", .other, bs "text/plain"⟩] =
      [⟨bs "X-Marker: yes", .other, bs "yes"⟩] ∧
    http_header_list_filter (fun h => h.raw == bs "X-Marker: yes")
        [⟨bs "X-Marker: yes", .other, bs "yes"⟩,
         ⟨bs "Content-Type: text/plain", .other, bs "text/plain"⟩] ≠
      [⟨bs "Content-Type: text/plain", .other, bs "text/plain"⟩] := by
  constructor
  · decide
  · decide

/-- C7: a request whose request line is 104 bytes long, on a listener with
max_uri_length = 16, is not answered with 414: the checking phase passes it
through to routing, because no code path of do_http consults
max_uri_length or produces HTTP_STATUS_URI_TOO_LONG (first conjunct: no
input at all is answered with 414). -/
theorem do_http_never_414 :
    (∀ (l : ListenerCfg) (reqLine : List Nat) (hs : List Hdr),
      do_http_request_check l reqLine hs ≠ .uriTooLong) ∧
    do_http_request_check ⟨0, 0, 16, none, []⟩
        (bs "GET /" ++ List.replicate 90 97 ++ bs " HTTP/1.1") [] =
      .route .mGET (47 :: List.replicate 90 97) 1 [] false (-1) (-1) false := by
  constructor
  · intro l reqLine hs
    unfold do_http_request_check
    cases parse_http_request reqLine l.verb with
    | none => simp
    | some p =>
      obtain ⟨m, u, v⟩ := p
      dsimp only
      split
      · simp
      · cases header_check (initIsRpc m) hs l.headOff l.maxReq <;> simp
  · decide

/-- C8: with family PF_UNSPEC and both queries successful (one A record
1.2.3.4 expiring at 100, one AAAA record ::1 expiring at 50), dns_lookup
returns count = 2 and expires = 50 as the claim states, but the returned
address array is [::1, zero-filled slot]: the AAAA loop indexes the array
with its own counter instead of resp->count, overwriting the A record,
which is absent from the result. -/
theorem dns_lookup_overwrites_a_records :
    dns_lookup PF_UNSPEC (.ok ⟨100, [[1, 2, 3, 4]]⟩)
        (.ok ⟨50, [List.replicate 15 0 ++ [1]]⟩) =
      (.success, some ⟨50, 2, [mkSockIn6 (List.replicate 15 0 ++ [1]), zeroEntry]⟩) ∧
    ([mkSockIn6 (List.replicate 15 0 ++ [1]), zeroEntry].contains (mkSockIn [1, 2, 3, 4]))
      = false := by
  constructor
  · decide
  · decide

/-- C2 (counterexample): a request whose single Content-Length header has
the negative value -5 is not answered with 400: the header loop silently
removes the header (keeping cont = -5) and the phase falls through to
routing. -/
theorem content_length_negative_no_400 :
    header_check (-1) [⟨bs "Content-Length: -5", .contentLength, bs "-5"⟩] [] 0 =
      .proceed [] false (-5) (-1) false := by
  decide

/-- C6 (counterexample): a request with method RPC_IN_DATA and
Content-Length 2147483649 (0x80000001, above the RPC window) on a listener
with max_req = 100 is answered with 413, although the claim exempts every
RPC_IN_DATA request from the limit. -/
theorem rpc_in_data_large_payload_413 :
    header_check (initIsRpc .mRPC_IN_DATA)
        [⟨bs "Content-Length: 2147483649", .contentLength, bs "2147483649"⟩] [] 100 =
      .err413 := by
  decide

/-- C4 (counterexample): expanding the template consisting only of the
reference to the absent capture 5 against an empty match vector yields the
literal text of the reference, not the empty string; and with an empty
capture vector and the redirect flag clear, expansion of the dollar-free
template "ab" appends the original URL instead of returning the template
unchanged. -/
theorem expand_url_counterexamples :
    expand_url (bs "$5") (bs "abc") [] true = some (bs "$5") ∧
    some (bs "$5") ≠ some ([] : List Nat) ∧
    expand_url (bs "ab") (bs "XY") [] false = some (bs "abXY") ∧
    some (bs "abXY") ≠ some (bs "ab") := by
  refine ⟨by decide, by decide, by decide, by decide⟩

/-- C5 (counterexample): for a peer sockaddr of family AF_UNIX, acl_match
returns -1 (the error value its own comment documents for an invalid
address family), not the non-match value 1 that the claim requires. -/
theorem acl_match_unknown_family_error :
    acl_match [] ⟨AF_UNIX, []⟩ = -1 ∧ acl_match [] ⟨AF_UNIX, []⟩ ≠ 1 := by
  constructor
  · decide
  · decide

theorem takeWhile_all (p : Nat → Bool) :
    ∀ l : List Nat, (∀ c ∈ l, p c = true) → l.takeWhile p = l := by
  intro l
  induction l with
  | nil => intro _; rfl
  | cons c rest ih =>
    intro h
    have hc : p c = true := h c (List.mem_cons_self c rest)
    simp [List.takeWhile, hc, ih (fun x hx => h x (List.mem_cons_of_mem c hx))]

theorem dropWhile_all (p : Nat → Bool) :
    ∀ l : List Nat, (∀ c ∈ l, p c = true) → l.dropWhile p = [] := by
  intro l
  induction l with
  | nil => intro _; rfl
  | cons c rest ih =>
    intro h
    have hc : p c = true := h c (List.mem_cons_self c rest)
    simp [List.dropWhile, hc, ih (fun x hx => h x (List.mem_cons_of_mem c hx))]

theorem expandGoF_noDollar (sm : List (List Nat)) (redir : Bool) :
    ∀ (t : List Nat) (fuel : Nat), 36 ∉ t → t.length ≤ fuel →
      expandGoF fuel t sm redir = some (t, redir) := by
  intro t
  induction t with
  | nil =>
    intro fuel _ _
    cases fuel <;> rfl
  | cons c rest ih =>
    intro fuel hnot hlen
    have hc : c ≠ 36 := fun e => hnot (e ▸ List.mem_cons_self c rest)
    have hr : (36 : Nat) ∉ rest := fun m => hnot (List.mem_cons_of_mem c m)
    cases fuel with
    | zero => simp at hlen
    | succ f =>
      have hf : rest.length ≤ f := by simpa using hlen
      simp [expandGoF, hc, ih f hr hf]

/-- C4 (amended): template expansion copies an out-of-range capture
reference literally instead of substituting the empty string; a dollar-free
template is returned unchanged only when the redirect-request flag is set,
and gets the original URL appended when it is clear. -/
theorem expand_url_amended :
    (∀ (t orig : List Nat) (sm : List (List Nat)) (redir : Bool), 36 ∉ t →
      expand_url t orig sm redir = some (if redir then t else t ++ orig)) ∧
    (∀ (digits orig : List Nat) (sm : List (List Nat)) (redir : Bool),
      digits ≠ [] → (∀ c ∈ digits, isdigitB c = true) →
      natOfDigits digits < 2 ^ 63 → sm.length ≤ natOfDigits digits →
      expand_url (36 :: digits) orig sm redir = some (36 :: digits)) := by
  constructor
  · intro t orig sm redir hnot
    unfold expand_url
    rw [expandGoF_noDollar sm redir t t.length hnot (Nat.le_refl _)]
  · intro digits orig sm redir hne hdig hv hsm
    obtain ⟨d, rest2, rfl⟩ := List.exists_cons_of_ne_nil hne
    have hd : isdigitB d = true := hdig d (List.mem_cons_self d rest2)
    have hd36 : (d == 36) = false := by
      have h48 : 48 ≤ d := by
        simp only [isdigitB, Bool.and_eq_true, decide_eq_true_eq] at hd
        exact hd.1
      simp only [beq_eq_false_iff_ne, ne_eq]
      omega
    have htake : (d :: rest2).takeWhile isdigitB = d :: rest2 := takeWhile_all _ _ hdig
    have hdrop : (d :: rest2).dropWhile isdigitB = [] := dropWhile_all _ _ hdig
    have hov : ¬ ((18446744073709551616 : Nat) ≤ natOfDigits (d :: rest2)) := by omega
    have hlt : natOfDigits (d :: rest2) < (9223372036854775808 : Nat) := by omega
    have hn : ¬ ((natOfDigits (d :: rest2) : Int) < (sm.length : Int)) := by
      have := Int.ofNat_le.mpr hsm
      omega
    unfold expand_url
    have : (36 :: d :: rest2).length = (d :: rest2).length + 1 := rfl
    rw [this]
    simp only [expandGoF, htake, hdrop]
    simp [hd36, hd, hov, hlt, hn, expandGoF]

/-- C4 (amended, witness): the two universal parts applied to the concrete
templates "xy" (dollar-free, redirect flag clear) and "$7" (reference to
capture 7 with an empty match vector). -/
theorem expand_url_amended_witness :
    expand_url (bs "xy") (bs "Q") [] false = some (if false then bs "xy" else bs "xy" ++ bs "Q") ∧
    expand_url (36 :: bs "7") (bs "Q") [] true = some (36 :: bs "7") :=
  ⟨expand_url_amended.1 (bs "xy") (bs "Q") [] false (by decide),
   expand_url_amended.2 (bs "7") (bs "Q") [] true (by decide) (by decide) (by decide)
     (by decide)⟩

theorem skipToLF_append (rest : List Nat) :
    ∀ l : List Nat, 10 ∉ l → skipToLF (l ++ 10 :: rest) = rest := by
  intro l
  induction l with
  | nil => intro _; simp [skipToLF]
  | cons c l2 ih =>
    intro h
    have hc : c ≠ 10 := fun e => h (e ▸ List.mem_cons_self c l2)
    have h2 : (10 : Nat) ∉ l2 := fun m => h (List.mem_cons_of_mem c m)
    simp [skipToLF, hc, ih h2]

theorem getLineAux_ok (bufsize : Nat) :
    ∀ (input : List Nat) (i : Nat) (seenCr : Bool) (acc buf rest : List Nat),
      (∀ c ∈ acc, goodByte c = true) → acc.length ≤ i →
      getLineAux bufsize input i seenCr acc = (true, buf, rest) →
      (∀ c ∈ buf, goodByte c = true) ∧ buf.length + 2 ≤ bufsize := by
  intro input
  induction input with
  | nil =>
    intro i seenCr acc buf rest hgood hlen h
    unfold getLineAux at h
    by_cases hi : i < bufsize - 1 <;> simp [hi] at h
  | cons c rest0 ih =>
    intro i seenCr acc buf rest hgood hlen h
    unfold getLineAux at h
    by_cases hi : i < bufsize - 1
    · rw [if_pos hi] at h
      cases seenCr with
      | true =>
        by_cases hc : (c == 10) = true
        · simp only [if_pos hc] at h
          have h3 := Prod.mk.injEq .. ▸ (Prod.mk.injEq .. ▸ h).2
          obtain rfl : acc.reverse = buf := h3.1
          refine ⟨fun x hx => hgood x (List.mem_reverse.mp hx), ?_⟩
          simp only [List.length_reverse]
          omega
        · simp only [Bool.not_eq_true] at hc
          simp [hc] at h
      | false =>
        simp only [Bool.false_eq_true, if_false] at h
        by_cases hg : goodByte c = true
        · rw [if_pos hg] at h
          exact ih (i + 1) false (c :: acc) buf rest
            (fun x hx => by
              rcases List.mem_cons.mp hx with rfl | hx2
              · exact hg
              · exact hgood x hx2)
            (by simpa using Nat.succ_le_succ hlen) h
        · rw [if_neg hg] at h
          by_cases h13 : (c == 13) = true
          · rw [if_pos h13] at h
            exact ih (i + 1) true acc buf rest hgood (Nat.le_succ_of_le hlen) h
          · rw [if_neg h13] at h
            by_cases h10 : (c == 10) = true
            · simp only [if_pos h10] at h
              have h3 := Prod.mk.injEq .. ▸ (Prod.mk.injEq .. ▸ h).2
              obtain rfl : acc.reverse = buf := h3.1
              refine ⟨fun x hx => hgood x (List.mem_reverse.mp hx), ?_⟩
              simp only [List.length_reverse]
              omega
            · simp [h10] at h
    · rw [if_neg hi] at h
      simp at h

theorem getLineAux_fail (bufsize : Nat) :
    ∀ (l rest : List Nat) (i : Nat) (acc : List Nat),
      10 ∉ l →
      ((∃ c ∈ stripCR l, goodByte c = false) ∨ bufsize - 1 < i + l.length + 1) →
      ∃ b, getLineAux bufsize (l ++ 10 :: rest) i false acc = (false, b, rest) := by
  intro l
  induction l with
  | nil =>
    intro rest i acc _ hbad
    have hi : ¬ i < bufsize - 1 := by
      rcases hbad with ⟨c, hc, _⟩ | hlen
      · simp [stripCR] at hc
      · simp only [List.length_nil] at hlen
        omega
    refine ⟨acc.reverse, ?_⟩
    unfold getLineAux
    rw [if_neg hi]
    simp [skipToLF]
  | cons c l2 ih =>
    intro rest i acc hnot hbad
    have hc10 : c ≠ 10 := fun e => hnot (e ▸ List.mem_cons_self c l2)
    have hl2 : (10 : Nat) ∉ l2 := fun m => hnot (List.mem_cons_of_mem c m)
    by_cases hi : i < bufsize - 1
    · unfold getLineAux
      rw [if_pos hi]
      simp only [List.cons_append, Bool.false_eq_true, if_false]
      by_cases hg : goodByte c = true
      · rw [if_pos hg]
        refine ih rest (i + 1) (c :: acc) hl2 ?_
        rcases hbad with ⟨x, hx, hxbad⟩ | hlen
        · left
          have hcne : c ≠ 13 := by
            intro e
            rw [e] at hg
            simp [goodByte, iscntrlB] at hg
          have hstrip : stripCR (c :: l2) = c :: stripCR l2 := by
            cases l2 with
            | nil => simp [stripCR, hcne]
            | cons y ys => rfl
          rw [hstrip] at hx
          rcases List.mem_cons.mp hx with rfl | hx2
          · rw [hg] at hxbad
            cases hxbad
          · exact ⟨x, hx2, hxbad⟩
        · right
          simp only [List.length_cons] at hlen
          omega
      · rw [if_neg hg]
        by_cases h13 : (c == 13) = true
        · rw [if_pos h13]
          have hc13 : c = 13 := by simpa using h13
          cases l2 with
          | nil =>
            have hi2 : ¬ (i + 1 < bufsize - 1) := by
              rcases hbad with ⟨x, hx, _⟩ | hlen
              · rw [hc13] at hx
                simp [stripCR] at hx
              · simp only [List.length_cons, List.length_nil] at hlen
                omega
            refine ⟨acc.reverse, ?_⟩
            unfold getLineAux
            rw [if_neg hi2]
            simp [skipToLF]
          | cons d l3 =>
            have hd10 : d ≠ 10 := fun e => hl2 (e ▸ List.mem_cons_self d l3)
            have hl3 : (10 : Nat) ∉ l3 := fun m => hl2 (List.mem_cons_of_mem d m)
            refine ⟨acc.reverse, ?_⟩
            unfold getLineAux
            by_cases hi2 : i + 1 < bufsize - 1
            · rw [if_pos hi2]
              simp only [List.cons_append, if_true]
              have hd : (d == 10) = false := by
                simp only [beq_eq_false_iff_ne, ne_eq]
                exact hd10
              simp only [hd, Bool.false_eq_true, if_false, if_true]
              rw [skipToLF_append rest l3 hl3]
            · rw [if_neg hi2]
              rw [skipToLF_append rest (d :: l3) hl2]
        · rw [if_neg h13]
          have h10 : (c == 10) = false := by
            simp only [beq_eq_false_iff_ne, ne_eq]
            exact hc10
          simp only [h10, Bool.false_eq_true, if_false]
          exact ⟨acc.reverse, by rw [skipToLF_append rest l2 hl2]⟩
    · refine ⟨acc.reverse, ?_⟩
      unfold getLineAux
      rw [if_neg hi]
      rw [skipToLF_append rest (c :: l2) hnot]

/-- C9: get_line itself keeps its contract - on success (return 0) the
buffer holds no CR, no LF and no control byte other than TAB and leaves
room for the terminating NUL, and a line with a forbidden control byte, a
CR not directly followed by the final LF (such a CR stays in stripCR of the
body and is a bad byte), or more than bufsize - 1 bytes including the LF is
consumed through its LF and reported as failure (return 1), with the stored
prefix left in the buffer.  But the claim's conclusion fails:
http_request_read aborts the request-line read only when get_line returns a
negative value (http.c:967), and get_line reports every failure with 1 (its
-1 needs a BIO without read support, impossible for do_http's buffered
socket BIOs), so for the stream "GET / HTTP/1.1<BEL>CRLF Host: h CRLF CRLF"
the rejected line is consumed, yet its stored prefix "GET / HTTP/1.1" is
strdup'd (http.c:978) and processed as the request line together with the
following headers. -/
theorem get_line_reject_used_as_request_line :
    (∀ (bufsize : Nat) (input buf rest : List Nat),
      get_line bufsize input = (true, buf, rest) →
      (∀ c ∈ buf, goodByte c = true) ∧ buf.length + 2 ≤ bufsize) ∧
    (∀ (bufsize : Nat) (l rest : List Nat),
      10 ∉ l →
      ((∃ c ∈ stripCR l, goodByte c = false) ∨ bufsize - 1 < l.length + 1) →
      ∃ b, get_line bufsize (l ++ 10 :: rest) = (false, b, rest)) ∧
    (get_line 4096 (bs "GET / HTTP/1.1" ++ [7, 13, 10] ++ bs "Host: h" ++ [13, 10, 13, 10]) =
      (false, bs "GET / HTTP/1.1", bs "Host: h" ++ [13, 10, 13, 10]) ∧
     http_request_read qualifyRaw 4096
        (bs "GET / HTTP/1.1" ++ [7, 13, 10] ++ bs "Host: h" ++ [13, 10, 13, 10]) =
      some ⟨bs "GET / HTTP/1.1", [⟨bs "Host: h", .other, bs "Host: h"⟩]⟩) := by
  refine ⟨?_, ?_, by decide, by decide⟩
  · intro bufsize input buf rest h
    exact getLineAux_ok bufsize input 0 false [] buf rest (by simp) (by simp) h
  · intro bufsize l rest hnot hbad
    refine getLineAux_fail bufsize l rest 0 [] hnot ?_
    rcases hbad with hx | hlen
    · exact Or.inl hx
    · exact Or.inr (by omega)

/-- C9 (witness): the success part applied to the line "Hi" followed by
CRLF (buffer size 16), and the failure part applied to a line whose middle
byte is the control character BEL. -/
theorem get_line_reject_used_as_request_line_witness :
    ((∀ c ∈ bs "Hi", goodByte c = true) ∧ (bs "Hi").length + 2 ≤ 16) ∧
    (∃ b, get_line 16 ([97, 7, 98] ++ 10 :: [120]) = (false, b, [120])) :=
  ⟨get_line_reject_used_as_request_line.1 16 (bs "Hi" ++ [13, 10, 120]) (bs "Hi") [120]
     (by decide),
   get_line_reject_used_as_request_line.2.1 16 [97, 7, 98] [120] (by decide)
     (Or.inl (by decide))⟩

theorem headerLoop_neutral (h : Hdr) (hne1 : h.code ≠ .transferEncoding)
    (hne2 : h.code ≠ .contentLength) (kept hrest : List Hdr) (chunked : Bool)
    (cont isRpc : Int) (cc : Bool) :
    ∃ kept2 cc2,
      headerLoop kept (h :: hrest) chunked cont isRpc cc =
        headerLoop kept2 hrest chunked cont isRpc cc2 := by
  cases hcode : h.code
  case transferEncoding => exact absurd hcode hne1
  case contentLength => exact absurd hcode hne2
  case connection =>
    by_cases hv : caseEq h.value (bs "close") = true
    · exact ⟨kept ++ [h], true, by simp [headerLoop, hcode, hv]⟩
    · exact ⟨kept ++ [h], cc, by simp [headerLoop, hcode, hv]⟩
  case expect =>
    by_cases hv : caseEq h.value (bs "100-continue") = true
    · exact ⟨kept, cc, by simp [headerLoop, hcode, hv]⟩
    · exact ⟨kept ++ [h], cc, by simp [headerLoop, hcode, hv]⟩
  case illegal => exact ⟨kept, cc, by simp [headerLoop, hcode]⟩
  all_goals exact ⟨kept ++ [h], cc, by simp [headerLoop, hcode]⟩

theorem headerLoop_neutral_list :
    ∀ (pre : List Hdr),
      (∀ h ∈ pre, h.code ≠ .contentLength ∧ h.code ≠ .transferEncoding) →
      ∀ (kept rest2 : List Hdr) (chunked : Bool) (cont isRpc : Int) (cc : Bool),
        ∃ kept2 cc2,
          headerLoop kept (pre ++ rest2) chunked cont isRpc cc =
            headerLoop kept2 rest2 chunked cont isRpc cc2 := by
  intro pre
  induction pre with
  | nil => intro _ kept rest2 chunked cont isRpc cc; exact ⟨kept, cc, rfl⟩
  | cons h pre2 ih =>
    intro hno kept rest2 chunked cont isRpc cc
    have hh := hno h (List.mem_cons_self h pre2)
    obtain ⟨kept2, cc2, hstep⟩ :=
      headerLoop_neutral h hh.2 hh.1 kept (pre2 ++ rest2) chunked cont isRpc cc
    obtain ⟨kept3, cc3, hrest⟩ :=
      ih (fun x hx => hno x (List.mem_cons_of_mem h hx)) kept2 rest2 chunked cont isRpc cc2
    exact ⟨kept3, cc3, by rw [List.cons_append, hstep, hrest]⟩

theorem notTE_of_code (h : Hdr) (hne : h.code ≠ .transferEncoding) :
    isTEChunkedB h = false := by
  simp [isTEChunkedB, hne]

theorem notCleanCL_of_code (h : Hdr) (hne : h.code ≠ .contentLength) :
    isCleanNonnegCLB h = false := by
  simp [isCleanNonnegCLB, hne]

theorem notBadCL_of_code (h : Hdr) (hne : h.code ≠ .contentLength) :
    isBadCLB h = false := by
  simp [isBadCLB, hne]

theorem headerLoop_smuggling :
    ∀ (rest kept : List Hdr) (chunked : Bool) (cont isRpc : Int) (cc : Bool),
      (chunked = true ∨ ∃ h ∈ rest, isTEChunkedB h = true) →
      (cont ≠ -1 ∨ ∃ h ∈ rest, isCleanNonnegCLB h = true) →
      (∃ t, headerLoop kept rest chunked cont isRpc cc = .e400 t) ∨
      (∃ kept2 cont2 isRpc2 cc2,
        headerLoop kept rest chunked cont isRpc cc = .done kept2 true cont2 isRpc2 cc2 ∧
        cont2 ≠ -1) := by
  intro rest
  induction rest with
  | nil =>
    intro kept chunked cont isRpc cc hch hcl
    rcases hch with rfl | ⟨h, hm, _⟩
    · rcases hcl with hc | ⟨h, hm, _⟩
      · exact Or.inr ⟨kept, cont, isRpc, cc, rfl, hc⟩
      · cases hm
    · cases hm
  | cons h hrest ih =>
    intro kept chunked cont isRpc cc hch hcl
    by_cases hTE : h.code = .transferEncoding
    · have hclr : cont ≠ -1 ∨ ∃ x ∈ hrest, isCleanNonnegCLB x = true := by
        rcases hcl with hc | ⟨x, hx, hxcl⟩
        · exact Or.inl hc
        · rcases List.mem_cons.mp hx with rfl | hx2
          · rw [notCleanCL_of_code x (by rw [hTE]; intro e; cases e)] at hxcl
            cases hxcl
          · exact Or.inr ⟨x, hx2, hxcl⟩
      by_cases hv : caseEq h.value (bs "chunked") = true
      · have hstep : headerLoop kept (h :: hrest) chunked cont isRpc cc =
            headerLoop (kept ++ [h]) hrest true cont isRpc cc := by
          simp [headerLoop, hTE, hv]
        rw [hstep]
        exact ih (kept ++ [h]) true cont isRpc cc (Or.inl rfl) hclr
      · refine Or.inl ⟨1, ?_⟩
        simp [headerLoop, hTE, hv]
    · by_cases hCL : h.code = .contentLength
      · have hchr : chunked = true ∨ ∃ x ∈ hrest, isTEChunkedB x = true := by
          rcases hch with hc | ⟨x, hx, hxch⟩
          · exact Or.inl hc
          · rcases List.mem_cons.mp hx with rfl | hx2
            · rw [notTE_of_code x hTE] at hxch
              cases hxch
            · exact Or.inr ⟨x, hx2, hxch⟩
        by_cases hmul : (!(cont == -1) || h.value.contains 44) = true
        · refine Or.inl ⟨2, ?_⟩
          simp only [headerLoop, hCL]
          rw [if_pos hmul]
        · have hconteq : cont = -1 := by
            simp only [Bool.or_eq_true, Bool.not_eq_true'] at hmul
            push_neg at hmul
            simpa using hmul.1
          by_cases hbad : ((strtolSpan h.value).2.2 || !(strtolSpan h.value).2.1.isEmpty) = true
          · refine Or.inl ⟨3, ?_⟩
            simp only [headerLoop, hCL]
            rw [if_neg hmul, if_pos hbad]
          · have hclr : (strtolSpan h.value).1 ≠ -1 ∨
                ∃ x ∈ hrest, isCleanNonnegCLB x = true := by
              rcases hcl with hc | ⟨x, hx, hxcl⟩
              · exact absurd hconteq hc
              · rcases List.mem_cons.mp hx with rfl | hx2
                · left
                  simp only [isCleanNonnegCLB, Bool.and_eq_true, Bool.not_eq_true',
                    decide_eq_false_iff_not] at hxcl
                  intro e
                  rw [e] at hxcl
                  exact absurd (by norm_num) hxcl.2
                · exact Or.inr ⟨x, hx2, hxcl⟩
            have hstep : headerLoop kept (h :: hrest) chunked cont isRpc cc =
                headerLoop
                  (if (strtolSpan h.value).1 < 0 then kept else kept ++ [h]) hrest chunked
                  (strtolSpan h.value).1
                  (if isRpc = 1 ∧ ((strtolSpan h.value).1 < 0x20000 ∨
                      0x80000000 < (strtolSpan h.value).1) then -1 else isRpc) cc := by
              simp only [headerLoop, hCL]
              rw [if_neg hmul, if_neg hbad]
              by_cases hneg : (strtolSpan h.value).1 < 0
              · rw [if_pos hneg, if_pos hneg]
              · rw [if_neg hneg, if_neg hneg]
            rw [hstep]
            exact ih _ chunked (strtolSpan h.value).1 _ cc hchr hclr
      · have hchr : chunked = true ∨ ∃ x ∈ hrest, isTEChunkedB x = true := by
          rcases hch with hc | ⟨x, hx, hxch⟩
          · exact Or.inl hc
          · rcases List.mem_cons.mp hx with rfl | hx2
            · rw [notTE_of_code x hTE] at hxch
              cases hxch
            · exact Or.inr ⟨x, hx2, hxch⟩
        have hclr : cont ≠ -1 ∨ ∃ x ∈ hrest, isCleanNonnegCLB x = true := by
          rcases hcl with hc | ⟨x, hx, hxcl⟩
          · exact Or.inl hc
          · rcases List.mem_cons.mp hx with rfl | hx2
            · rw [notCleanCL_of_code x hCL] at hxcl
              cases hxcl
            · exact Or.inr ⟨x, hx2, hxcl⟩
        obtain ⟨kept2, cc2, hstep⟩ :=
          headerLoop_neutral h hTE hCL kept hrest chunked cont isRpc cc
        rw [hstep]
        exact ih kept2 chunked cont isRpc cc2 hchr hclr

/-- C1: a request accepted by parse_http_request and the CheckURL pattern
that carries, after header qualification, both a Content-Length header with
a cleanly parsed non-negative value and a Transfer-Encoding header with
value chunked, is answered with 400 (either by one of the per-header 400
checks or by the request-smuggling check) and do_http returns at that
point, before get_service / get_backend run and before anything is written
to a backend. -/
theorem smuggling_request_rejected :
    ∀ (l : ListenerCfg) (reqLine : List Nat) (hs : List Hdr) (m : Method)
      (u : List Nat) (v : Nat),
      parse_http_request reqLine l.verb = some (m, u, v) →
      (match l.urlPat with | some f => f u = true | none => True) →
      (∃ h ∈ hs, isTEChunkedB h = true) →
      (∃ h ∈ hs, isCleanNonnegCLB h = true) →
      ∃ t, do_http_request_check l reqLine hs = .badRequest t := by
  intro l reqLine hs m u v hparse hpat hte hcl
  have hloop := headerLoop_smuggling hs [] false (-1) (initIsRpc m) false
    (Or.inr hte) (Or.inr hcl)
  have hchk : ∃ t, header_check (initIsRpc m) hs l.headOff l.maxReq = .err400 t := by
    rcases hloop with ⟨t, ht⟩ | ⟨kept2, cont2, isRpc2, cc2, heq, hcont⟩
    · exact ⟨t, by unfold header_check; rw [ht]⟩
    · refine ⟨4, ?_⟩
      unfold header_check
      rw [heq]
      simp [hcont]
  obtain ⟨t, ht⟩ := hchk
  refine ⟨t, ?_⟩
  unfold do_http_request_check
  rw [hparse]
  cases hp : l.urlPat with
  | none => simp [hp, ht]
  | some f =>
    rw [hp] at hpat
    simp only at hpat
    simp [hp, hpat, ht]

/-- C1 (witness): the theorem applied to a plain listener and the request
POST /x HTTP/1.1 carrying Content-Length: 7 and Transfer-Encoding: chunked. -/
theorem smuggling_request_rejected_witness :
    ∃ t, do_http_request_check ⟨0, 0, 0, none, []⟩ (bs "POST /x HTTP/1.1")
      [⟨bs "Content-Length: 7", .contentLength, bs "7"⟩,
       ⟨bs "Transfer-Encoding: chunked", .transferEncoding, bs "chunked"⟩] =
      .badRequest t :=
  smuggling_request_rejected ⟨0, 0, 0, none, []⟩ (bs "POST /x HTTP/1.1")
    [⟨bs "Content-Length: 7", .contentLength, bs "7"⟩,
     ⟨bs "Transfer-Encoding: chunked", .transferEncoding, bs "chunked"⟩]
    .mPOST (bs "/x") 1 (by decide) trivial
    ⟨⟨bs "Transfer-Encoding: chunked", .transferEncoding, bs "chunked"⟩,
      by decide, by decide⟩
    ⟨⟨bs "Content-Length: 7", .contentLength, bs "7"⟩, by decide, by decide⟩

theorem headerLoop_badCL :
    ∀ (rest kept : List Hdr) (chunked : Bool) (cont isRpc : Int) (cc : Bool),
      ((∃ h ∈ rest, isBadCLB h = true) ∨
       (cont ≠ -1 ∧ ∃ h ∈ rest, h.code = .contentLength) ∨
       2 ≤ (rest.filter isCleanNonnegCLB).length) →
      ∃ t, headerLoop kept rest chunked cont isRpc cc = .e400 t := by
  intro rest
  induction rest with
  | nil =>
    intro kept chunked cont isRpc cc hbad
    rcases hbad with ⟨h, hm, _⟩ | ⟨_, h, hm, _⟩ | hf
    · cases hm
    · cases hm
    · simp at hf
  | cons h hrest ih =>
    intro kept chunked cont isRpc cc hbad
    by_cases hTE : h.code = .transferEncoding
    · have hCLne : h.code ≠ .contentLength := by rw [hTE]; intro e; cases e
      have hbadr : (∃ x ∈ hrest, isBadCLB x = true) ∨
          (cont ≠ -1 ∧ ∃ x ∈ hrest, x.code = .contentLength) ∨
          2 ≤ (hrest.filter isCleanNonnegCLB).length := by
        rcases hbad with ⟨x, hx, hxb⟩ | ⟨hc, x, hx, hxc⟩ | hf
        · rcases List.mem_cons.mp hx with rfl | hx2
          · rw [notBadCL_of_code x hCLne] at hxb
            cases hxb
          · exact Or.inl ⟨x, hx2, hxb⟩
        · rcases List.mem_cons.mp hx with rfl | hx2
          · exact absurd hxc hCLne
          · exact Or.inr (Or.inl ⟨hc, x, hx2, hxc⟩)
        · rw [List.filter_cons_of_neg (by rw [notCleanCL_of_code h hCLne]; intro e; cases e)]
            at hf
          exact Or.inr (Or.inr hf)
      by_cases hv : caseEq h.value (bs "chunked") = true
      · have hstep : headerLoop kept (h :: hrest) chunked cont isRpc cc =
            headerLoop (kept ++ [h]) hrest true cont isRpc cc := by
          simp [headerLoop, hTE, hv]
        rw [hstep]
        exact ih (kept ++ [h]) true cont isRpc cc hbadr
      · exact ⟨1, by simp [headerLoop, hTE, hv]⟩
    · by_cases hCL : h.code = .contentLength
      · by_cases hmul : (!(cont == -1) || h.value.contains 44) = true
        · refine ⟨2, ?_⟩
          simp only [headerLoop, hCL]
          rw [if_pos hmul]
        · have hconteq : cont = -1 := by
            simp only [Bool.or_eq_true, Bool.not_eq_true'] at hmul
            push_neg at hmul
            simpa using hmul.1
          have hnocomma : h.value.contains 44 = false := by
            simp only [Bool.or_eq_true, Bool.not_eq_true'] at hmul
            push_neg at hmul
            exact Bool.eq_false_iff.mpr hmul.2
          by_cases hbad2 : ((strtolSpan h.value).2.2 || !(strtolSpan h.value).2.1.isEmpty) = true
          · refine ⟨3, ?_⟩
            simp only [headerLoop, hCL]
            rw [if_neg hmul, if_pos hbad2]
          · have hclean2 : (strtolSpan h.value).2.2 = false ∧
                (strtolSpan h.value).2.1.isEmpty = true := by
              simp only [Bool.or_eq_true, Bool.not_eq_true'] at hbad2
              push_neg at hbad2
              exact ⟨Bool.eq_false_iff.mpr hbad2.1, Bool.ne_false_iff.mp hbad2.2⟩
            have hbadr : (∃ x ∈ hrest, isBadCLB x = true) ∨
                ((strtolSpan h.value).1 ≠ -1 ∧ ∃ x ∈ hrest, x.code = .contentLength) ∨
                2 ≤ (hrest.filter isCleanNonnegCLB).length := by
              rcases hbad with ⟨x, hx, hxb⟩ | ⟨hc, _⟩ | hf
              · rcases List.mem_cons.mp hx with rfl | hx2
                · exfalso
                  have hnomem : (44 : Nat) ∉ x.value := by simpa using hnocomma
                  have hxf : isBadCLB x = false := by
                    simp [isBadCLB, hclean2.1, hclean2.2, hnomem]
                  rw [hxf] at hxb
                  cases hxb
                · exact Or.inl ⟨x, hx2, hxb⟩
              · exact absurd hconteq hc
              · by_cases hcls : isCleanNonnegCLB h = true
                · rw [List.filter_cons_of_pos hcls] at hf
                  simp only [List.length_cons] at hf
                  have h1 : 1 ≤ (hrest.filter isCleanNonnegCLB).length := by omega
                  obtain ⟨x, hx⟩ := List.exists_mem_of_length_pos (by omega :
                    0 < (hrest.filter isCleanNonnegCLB).length)
                  have hx2 := List.mem_filter.mp hx
                  refine Or.inr (Or.inl ⟨?_, x, hx2.1, ?_⟩)
                  · simp only [isCleanNonnegCLB, Bool.and_eq_true, Bool.not_eq_true',
                      decide_eq_false_iff_not] at hcls
                    intro e
                    rw [e] at hcls
                    exact absurd (by norm_num) hcls.2
                  · have := hx2.2
                    simp only [isCleanNonnegCLB, Bool.and_eq_true, beq_iff_eq] at this
                    exact this.1.1.1
                · rw [List.filter_cons_of_neg (by simpa using hcls)] at hf
                  exact Or.inr (Or.inr hf)
            have hstep : headerLoop kept (h :: hrest) chunked cont isRpc cc =
                headerLoop
                  (if (strtolSpan h.value).1 < 0 then kept else kept ++ [h]) hrest chunked
                  (strtolSpan h.value).1
                  (if isRpc = 1 ∧ ((strtolSpan h.value).1 < 0x20000 ∨
                      0x80000000 < (strtolSpan h.value).1) then -1 else isRpc) cc := by
              simp only [headerLoop, hCL]
              rw [if_neg hmul, if_neg hbad2]
              by_cases hneg : (strtolSpan h.value).1 < 0
              · rw [if_pos hneg, if_pos hneg]
              · rw [if_neg hneg, if_neg hneg]
            rw [hstep]
            exact ih _ chunked (strtolSpan h.value).1 _ cc hbadr
      · have hbadr : (∃ x ∈ hrest, isBadCLB x = true) ∨
            (cont ≠ -1 ∧ ∃ x ∈ hrest, x.code = .contentLength) ∨
            2 ≤ (hrest.filter isCleanNonnegCLB).length := by
          rcases hbad with ⟨x, hx, hxb⟩ | ⟨hc, x, hx, hxc⟩ | hf
          · rcases List.mem_cons.mp hx with rfl | hx2
            · rw [notBadCL_of_code x hCL] at hxb
              cases hxb
            · exact Or.inl ⟨x, hx2, hxb⟩
          · rcases List.mem_cons.mp hx with rfl | hx2
            · exact absurd hxc hCL
            · exact Or.inr (Or.inl ⟨hc, x, hx2, hxc⟩)
          · rw [List.filter_cons_of_neg (by rw [notCleanCL_of_code h hCL]; intro e; cases e)]
              at hf
            exact Or.inr (Or.inr hf)
        obtain ⟨kept2, cc2, hstep⟩ :=
          headerLoop_neutral h hTE hCL kept hrest chunked cont isRpc cc
        rw [hstep]
        exact ih kept2 chunked cont isRpc cc2 hbadr

/-- C2 (amended): a request is answered with 400 when a Content-Length
header carries a malformed value (strtol range error or trailing
non-numeric bytes) or a comma-separated value, or when two Content-Length
headers with cleanly parsed non-negative values are present.  A negative
Content-Length, by contrast, does not produce 400 (see the counterexample):
the header is silently removed. -/
theorem content_length_bad_rejected :
    ∀ (isRpcInit : Int) (hs : List Hdr) (headOff : List (Hdr → Bool)) (maxReq : Int),
      ((∃ h ∈ hs, isBadCLB h = true) ∨ 2 ≤ (hs.filter isCleanNonnegCLB).length) →
      ∃ t, header_check isRpcInit hs headOff maxReq = .err400 t := by
  intro isRpcInit hs headOff maxReq hbad
  obtain ⟨t, ht⟩ := headerLoop_badCL hs [] false (-1) isRpcInit false
    (by rcases hbad with hb | hf
        · exact Or.inl hb
        · exact Or.inr (Or.inr hf))
  exact ⟨t, by unfold header_check; rw [ht]⟩

/-- C2 (amended, witness): the theorem applied to a request whose single
Content-Length header has the non-numeric value "abc". -/
theorem content_length_bad_rejected_witness :
    ∃ t, header_check (-1) [⟨bs "Content-Length: abc", .contentLength, bs "abc"⟩] [] 0 =
      .err400 t :=
  content_length_bad_rejected (-1) [⟨bs "Content-Length: abc", .contentLength, bs "abc"⟩]
    [] 0 (Or.inl ⟨⟨bs "Content-Length: abc", .contentLength, bs "abc"⟩, by decide, by decide⟩)

theorem dropWhile_eq_nil_all (p : Nat → Bool) :
    ∀ l : List Nat, l.dropWhile p = [] → ∀ c ∈ l, p c = true := by
  intro l
  induction l with
  | nil => intro _ c hc; cases hc
  | cons a rest ih =>
    intro h c hc
    by_cases ha : p a = true
    · rw [List.dropWhile_cons_of_pos ha] at h
      rcases List.mem_cons.mp hc with rfl | hc2
      · exact ha
      · exact ih h c hc2
    · rw [List.dropWhile_cons_of_neg ha] at h
      cases h

theorem strtolCore_clean (neg : Bool) (s orig : List Nat) (n : Int)
    (h : strtolCore neg s orig = (n, [], false)) :
    (∀ c ∈ s, isdigitB c = true) ∨ orig = [] := by
  simp only [strtolCore] at h
  by_cases he : (s.takeWhile isdigitB).isEmpty = true
  · rw [if_pos he] at h
    simp only [Prod.mk.injEq] at h
    exact Or.inr h.2.1
  · rw [if_neg he] at h
    by_cases h1 : (if neg = true then -1 else 1) * (natOfDigits (s.takeWhile isdigitB) : Int)
        > LONG_MAX
    · rw [if_pos h1] at h
      simp only [Prod.mk.injEq] at h
      exact absurd h.2.2 (by simp)
    · rw [if_neg h1] at h
      by_cases h2 : (if neg = true then -1 else 1) * (natOfDigits (s.takeWhile isdigitB) : Int)
          < LONG_MIN
      · rw [if_pos h2] at h
        simp only [Prod.mk.injEq] at h
        exact absurd h.2.2 (by simp)
      · rw [if_neg h2] at h
        simp only [Prod.mk.injEq] at h
        left
        exact dropWhile_eq_nil_all isdigitB s h.2.1

theorem strtolSpan_clean_no_comma :
    ∀ (v : List Nat) (n : Int), strtolSpan v = (n, [], false) → v.contains 44 = false := by
  intro v n h
  suffices hs : (44 : Nat) ∉ v by simpa using hs
  intro hm
  have hsplit := List.takeWhile_append_dropWhile (p := isspaceB) (l := v)
  have hm2 : 44 ∈ v.takeWhile isspaceB ∨ 44 ∈ v.dropWhile isspaceB := by
    rcases List.mem_append.mp (hsplit ▸ hm) with h1 | h2
    · exact Or.inl h1
    · exact Or.inr h2
  rcases hm2 with h1 | h2
  · have := List.mem_takeWhile_imp h1
    simp [isspaceB] at this
  · unfold strtolSpan at h
    rcases hw : v.dropWhile isspaceB with _ | ⟨c, r⟩
    · rw [hw] at h2
      cases h2
    · rw [hw] at h h2
      dsimp only at h
      have hvne : v ≠ [] := by
        intro e
        rw [e] at hw
        cases hw
      by_cases hc43 : c = 43
      · rw [if_pos hc43] at h
        rcases strtolCore_clean false r v n h with hall | hnil
        · rcases List.mem_cons.mp h2 with he | hr
          · rw [hc43] at he
            cases he
          · have := hall 44 hr
            simp [isdigitB] at this
        · exact hvne hnil
      · rw [if_neg hc43] at h
        by_cases hc45 : c = 45
        · rw [if_pos hc45] at h
          rcases strtolCore_clean true r v n h with hall | hnil
          · rcases List.mem_cons.mp h2 with he | hr
            · rw [hc45] at he
              cases he
            · have := hall 44 hr
              simp [isdigitB] at this
          · exact hvne hnil
        · rw [if_neg hc45] at h
          rcases strtolCore_clean false (c :: r) v n h with hall | hnil
          · have := hall 44 h2
            simp [isdigitB] at this
          · exact hvne hnil

theorem initIsRpc_ne_one (m : Method) (hm : m ≠ .mRPC_IN_DATA) : initIsRpc m ≠ 1 := by
  cases m <;> first
    | exact absurd rfl hm
    | (intro e; cases e)

/-- C6 (amended): with a single cleanly parsed Content-Length of value n, no
Transfer-Encoding header, a configured limit 0 < max_req and n above it,
the request is answered with 413 unless the method is RPC_IN_DATA and n
lies inside the RPC window [0x20000, 0x80000000]; inside that window an
RPC_IN_DATA request is exempted and falls through to routing. -/
theorem max_request_amended :
    ∀ (meth : Method) (raw v : List Nat) (pre post : List Hdr) (n : Int)
      (headOff : List (Hdr → Bool)) (maxReq : Int),
      (∀ h ∈ pre, h.code ≠ .contentLength ∧ h.code ≠ .transferEncoding) →
      (∀ h ∈ post, h.code ≠ .contentLength ∧ h.code ≠ .transferEncoding) →
      strtolSpan v = (n, [], false) →
      0 < maxReq → maxReq < n →
      ((¬ (meth = .mRPC_IN_DATA ∧ 0x20000 ≤ n ∧ n ≤ 0x80000000) →
        header_check (initIsRpc meth)
          (pre ++ ⟨raw, .contentLength, v⟩ :: post) headOff maxReq = .err413) ∧
       ((meth = .mRPC_IN_DATA ∧ 0x20000 ≤ n ∧ n ≤ 0x80000000) →
        ∃ kept cc, header_check (initIsRpc meth)
          (pre ++ ⟨raw, .contentLength, v⟩ :: post) headOff maxReq =
          .proceed kept false n 1 cc)) := by
  intro meth raw v pre post n headOff maxReq hpre hpost hv hmax hlarge
  have hn0 : (0 : Int) < n := lt_trans hmax hlarge
  obtain ⟨kept2, cc2, hstep1⟩ := headerLoop_neutral_list pre hpre []
    (⟨raw, .contentLength, v⟩ :: post) false (-1) (initIsRpc meth) false
  have hnocomma := strtolSpan_clean_no_comma v n hv
  have hnomem : (44 : Nat) ∉ v := by simpa using hnocomma
  have hmul : ¬ ((!((-1 : Int) == -1) || (Hdr.mk raw .contentLength v).value.contains 44)
      = true) := by
    simp [hnomem]
  have hbad2 : ¬ (((strtolSpan (Hdr.mk raw .contentLength v).value).2.2 ||
      !(strtolSpan (Hdr.mk raw .contentLength v).value).2.1.isEmpty) = true) := by
    simp only [hv]
    simp
  have hneg : ¬ ((strtolSpan (Hdr.mk raw .contentLength v).value).1 < 0) := by
    simp only [hv]
    omega
  have hstep2 : headerLoop kept2 (⟨raw, .contentLength, v⟩ :: post) false (-1)
      (initIsRpc meth) cc2 =
      headerLoop (kept2 ++ [⟨raw, .contentLength, v⟩]) post false n
        (if initIsRpc meth = 1 ∧ (n < 0x20000 ∨ 0x80000000 < n) then -1 else initIsRpc meth)
        cc2 := by
    simp only [headerLoop]
    rw [if_neg hmul, if_neg hbad2, if_neg hneg]
    simp only [hv]
  obtain ⟨kept3, cc3, hstep3⟩ := headerLoop_neutral_list post hpost
    (kept2 ++ [⟨raw, .contentLength, v⟩]) [] false n
    (if initIsRpc meth = 1 ∧ (n < 0x20000 ∨ 0x80000000 < n) then -1 else initIsRpc meth) cc2
  have hloop : headerLoop [] (pre ++ ⟨raw, .contentLength, v⟩ :: post) false (-1)
      (initIsRpc meth) false = .done kept3 false n
        (if initIsRpc meth = 1 ∧ (n < 0x20000 ∨ 0x80000000 < n) then -1 else initIsRpc meth)
        cc3 := by
    rw [hstep1, hstep2]
    rw [show (post ++ [] : List Hdr) = post from List.append_nil post] at hstep3
    rw [hstep3]
    rfl
  constructor
  · intro hnex
    have hrpc : (if initIsRpc meth = 1 ∧ (n < 0x20000 ∨ 0x80000000 < n) then (-1 : Int)
        else initIsRpc meth) ≠ 1 := by
      by_cases hm : meth = .mRPC_IN_DATA
      · subst hm
        have hwin : n < 0x20000 ∨ 0x80000000 < n := by
          by_contra hcon
          push_neg at hcon
          exact hnex ⟨rfl, hcon.1, hcon.2⟩
        rw [if_pos ⟨rfl, hwin⟩]
        intro e
        cases e
      · have hne := initIsRpc_ne_one meth hm
        by_cases hc : initIsRpc meth = 1 ∧ (n < 0x20000 ∨ 0x80000000 < n)
        · exact absurd hc.1 hne
        · rw [if_neg hc]
          exact hne
    unfold header_check
    rw [hloop]
    simp only
    rw [if_neg (by intro hx; cases hx.1)]
    rw [if_pos ⟨hmax, hn0, hlarge, hrpc⟩]
  · intro hex
    obtain ⟨hm, hlo, hhi⟩ := hex
    subst hm
    have hrpc : (if initIsRpc Method.mRPC_IN_DATA = 1 ∧ (n < 0x20000 ∨ 0x80000000 < n)
        then (-1 : Int) else initIsRpc Method.mRPC_IN_DATA) = 1 := by
      rw [if_neg (by
        intro hc
        rcases hc.2 with hl | hh
        · omega
        · omega)]
      rfl
    refine ⟨headOff.foldl (fun l m => http_header_list_filter m l) kept3, cc3, ?_⟩
    unfold header_check
    rw [hloop]
    simp only
    rw [if_neg (by intro hx; cases hx.1)]
    rw [if_neg (by intro hx; exact hx.2.2.2 hrpc)]
    rw [hrpc]

/-- C6 (amended, witness): the 413 part applied to a GET request with
Content-Length 200 against max_req = 100, and the exemption part applied to
an RPC_IN_DATA request with Content-Length 200000 against the same limit. -/
theorem max_request_amended_witness :
    header_check (initIsRpc .mGET)
      ([] ++ ⟨bs "Content-Length: 200", .contentLength, bs "200"⟩ :: []) [] 100 = .err413 ∧
    ∃ kept cc, header_check (initIsRpc .mRPC_IN_DATA)
      ([] ++ ⟨bs "Content-Length: 200000", .contentLength, bs "200000"⟩ :: []) [] 100 =
      .proceed kept false 200000 1 cc :=
  ⟨(max_request_amended .mGET (bs "Content-Length: 200") (bs "200") [] [] 200 [] 100
      (by decide) (by decide) (by decide) (by decide) (by decide)).1 (by decide),
   (max_request_amended .mRPC_IN_DATA (bs "Content-Length: 200000") (bs "200000") [] []
      200000 [] 100 (by decide) (by decide) (by decide) (by decide) (by decide)).2
      (by decide)⟩

theorem sockaddr_bytes_some (sa : SockAddr) (ap : List Nat) (len : Nat)
    (h : sockaddr_bytes sa = some (ap, len)) :
    ap = sa.bytes ∧ ((sa.family = AF_INET ∧ len = 4) ∨ (sa.family = AF_INET6 ∧ len = 16)) := by
  unfold sockaddr_bytes at h
  by_cases h2 : sa.family = AF_INET
  · rw [if_pos h2] at h
    simp only [Option.some.injEq, Prod.mk.injEq] at h
    exact ⟨h.1.symm, Or.inl ⟨h2, h.2.symm⟩⟩
  · rw [if_neg h2] at h
    by_cases h10 : sa.family = AF_INET6
    · rw [if_pos h10] at h
      simp only [Option.some.injEq, Prod.mk.injEq] at h
      exact ⟨h.1.symm, Or.inr ⟨h10, h.2.symm⟩⟩
    · rw [if_neg h10] at h
      cases h

theorem cidr_match_zero_iff (c : CIDR) (ap : List Nat) (len : Nat) (hlen : c.len = len) :
    cidr_match c ap len = 0 ↔
      ∀ i < len, c.addr.getD i 0 = (ap.getD i 0) &&& c.mask.getD i 0 := by
  unfold cidr_match
  rw [if_pos hlen]
  by_cases hall : (List.range len).all
      (fun i => c.addr.getD i 0 == (ap.getD i 0) &&& c.mask.getD i 0) = true
  · rw [if_pos hall]
    constructor
    · intro _ i hi
      exact beq_iff_eq.mp (List.all_eq_true.mp hall i (List.mem_range.mpr hi))
    · intro _
      rfl
  · rw [if_neg hall]
    constructor
    · intro h10
      exact absurd h10 one_ne_zero
    · intro hb
      exact absurd (List.all_eq_true.mpr
        (fun i hi => beq_iff_eq.mpr (hb i (List.mem_range.mp hi)))) hall

/-- C5 (amended): for a well-formed ACL (each entry's stored length matches
its family, as parse_cidr guarantees), acl_match returns 0 exactly when
some CIDR entry has the peer's address family and
(peer_bytes[i] & mask[i]) == address[i] for every address byte; for a
sockaddr whose family is neither AF_INET nor AF_INET6 it returns -1, the
error value, not the non-match value 1 claimed. -/
theorem acl_match_amended :
    ∀ (acl : List CIDR) (sa : SockAddr),
      (∀ c ∈ acl, (c.family = AF_INET → c.len = 4) ∧ (c.family = AF_INET6 → c.len = 16)) →
      (∀ (ap : List Nat) (len : Nat), sockaddr_bytes sa = some (ap, len) →
        (acl_match acl sa = 0 ↔
          ∃ c ∈ acl, c.family = sa.family ∧
            ∀ i < len, c.addr.getD i 0 = (ap.getD i 0) &&& c.mask.getD i 0)) ∧
      (sockaddr_bytes sa = none → acl_match acl sa = -1) := by
  intro acl sa hwf
  constructor
  · intro ap len hsb
    have hlen_of : ∀ c ∈ acl, c.family = sa.family → c.len = len := by
      intro c hc hfam
      rcases (sockaddr_bytes_some sa ap len hsb).2 with ⟨hf, hl⟩ | ⟨hf, hl⟩
      · exact hl ▸ (hwf c hc).1 (hfam.trans hf)
      · exact hl ▸ (hwf c hc).2 (hfam.trans hf)
    unfold acl_match
    rw [hsb]
    dsimp only
    constructor
    · intro h0
      by_cases hany : acl.any
          (fun c => c.family == sa.family && cidr_match c ap len == 0) = true
      · obtain ⟨c, hc, hcb⟩ := List.any_eq_true.mp hany
        simp only [Bool.and_eq_true, beq_iff_eq] at hcb
        refine ⟨c, hc, hcb.1, ?_⟩
        exact (cidr_match_zero_iff c ap len (hlen_of c hc hcb.1)).mp hcb.2
      · rw [if_neg hany] at h0
        exact absurd h0 one_ne_zero
    · intro ⟨c, hc, hfam, hbytes⟩
      have hany : acl.any (fun c => c.family == sa.family && cidr_match c ap len == 0)
          = true := by
        refine List.any_eq_true.mpr ⟨c, hc, ?_⟩
        simp only [Bool.and_eq_true, beq_iff_eq]
        exact ⟨hfam, (cidr_match_zero_iff c ap len (hlen_of c hc hfam)).mpr hbytes⟩
      rw [if_pos hany]
  · intro hnone
    unfold acl_match
    rw [hnone]

/-- C5 (amended, witness): the match characterization applied to an ACL
holding 192.168.1.0/24 and the peer 192.168.1.77, whose sockaddr_bytes are
its four address bytes. -/
theorem acl_match_amended_witness :
    acl_match
        [⟨AF_INET, 4, [192, 168, 1, 0] ++ List.replicate 12 0,
          [255, 255, 255, 0] ++ List.replicate 12 0⟩]
        ⟨AF_INET, [192, 168, 1, 77]⟩ = 0 ↔
      ∃ c ∈ [(⟨AF_INET, 4, [192, 168, 1, 0] ++ List.replicate 12 0,
          [255, 255, 255, 0] ++ List.replicate 12 0⟩ : CIDR)],
        c.family = (⟨AF_INET, [192, 168, 1, 77]⟩ : SockAddr).family ∧
          ∀ i < 4, c.addr.getD i 0 =
            (([192, 168, 1, 77] : List Nat).getD i 0) &&& c.mask.getD i 0 :=
  (acl_match_amended
    [⟨AF_INET, 4, [192, 168, 1, 0] ++ List.replicate 12 0,
      [255, 255, 255, 0] ++ List.replicate 12 0⟩]
    ⟨AF_INET, [192, 168, 1, 77]⟩ (by decide)).1 [192, 168, 1, 77] 4 (by decide)

theorem getD_map_range (f : Nat → Nat) (d n i : Nat) :
    ((List.range n).map f).getD i d = if i < n then f i else d := by
  by_cases hi : i < n
  · rw [if_pos hi]
    rw [List.getD_eq_getElem _ _ (by simpa using hi)]
    simp
  · rw [if_neg hi]
    exact List.getD_eq_default _ _ (by simpa using Nat.le_of_not_lt hi)

theorem land_absorb (x m : Nat) : (x &&& m) &&& m = x &&& m := by
  apply Nat.eq_of_testBit_eq
  intro i
  simp [Nat.testBit_land, Bool.and_assoc]

/-- C10: every CIDR entry built by parse_cidr satisfies
addr[i] == (addr[i] & mask[i]) for every byte (the stored network address
is normalized against the mask), and two configured addresses with the same
network bits produce identical stored entries, so matching is insensitive
to host bits in the configured address. -/
theorem parse_cidr_normalized :
    (∀ (family len : Nat) (ab : List Nat) (mo : Option Nat) (i : Nat),
      (parse_cidr_core family len ab mo).addr.getD i 0 =
        ((parse_cidr_core family len ab mo).addr.getD i 0) &&&
          ((parse_cidr_core family len ab mo).mask.getD i 0)) ∧
    (∀ (family len : Nat) (ab1 ab2 : List Nat) (mo : Option Nat),
      (∀ i, i < len →
        (ab1.getD i 0) &&& ((masklen_to_netmask (mo.getD (len * 8))).getD i 0) =
        (ab2.getD i 0) &&& ((masklen_to_netmask (mo.getD (len * 8))).getD i 0)) →
      parse_cidr_core family len ab1 mo = parse_cidr_core family len ab2 mo) := by
  constructor
  · intro family len ab mo i
    simp only [parse_cidr_core]
    simp only [getD_map_range]
    by_cases h16 : i < MAX_INADDR_BYTES
    · simp only [if_pos h16]
      by_cases hl : i < len
      · simp only [if_pos hl]
        exact (land_absorb _ _).symm
      · simp only [if_neg hl]
        exact (Nat.zero_and _).symm
    · simp only [if_neg h16]
      exact (Nat.zero_and _).symm
  · intro family len ab1 ab2 mo hnet
    simp only [parse_cidr_core, CIDR.mk.injEq, true_and, and_true]
    apply List.map_congr_left
    intro a ha
    have ha16 : a < MAX_INADDR_BYTES := List.mem_range.mp ha
    by_cases hl : a < len
    · rw [if_pos hl, if_pos hl]
      rw [getD_map_range, getD_map_range, if_pos ha16, if_pos ha16]
      rw [if_pos hl, if_pos hl]
      exact hnet a hl
    · rw [if_neg hl, if_neg hl]
      rw [getD_map_range, getD_map_range, if_pos ha16, if_pos ha16]
      rw [if_neg hl, if_neg hl]

/-- C10 (witness): the normalization equation at byte 3 of the entry built
from 192.168.1.77/24, and the insensitivity of the stored entry to the host
bits of the configured address (192.168.1.77/24 versus 192.168.1.0/24). -/
theorem parse_cidr_normalized_witness :
    (parse_cidr_core AF_INET 4 [192, 168, 1, 77] (some 24)).addr.getD 3 0 =
      ((parse_cidr_core AF_INET 4 [192, 168, 1, 77] (some 24)).addr.getD 3 0) &&&
        ((parse_cidr_core AF_INET 4 [192, 168, 1, 77] (some 24)).mask.getD 3 0) ∧
    parse_cidr_core AF_INET 4 [192, 168, 1, 77] (some 24) =
      parse_cidr_core AF_INET 4 [192, 168, 1, 0] (some 24) :=
  ⟨parse_cidr_normalized.1 AF_INET 4 [192, 168, 1, 77] (some 24) 3,
   parse_cidr_normalized.2 AF_INET 4 [192, 168, 1, 77] [192, 168, 1, 0] (some 24)
     (by decide)⟩

end Pound
